import Mathlib

/-!
# FarnDB: a shallow embedding of `src/farndb.py`

FarnDB is a file-backed JSON document store.  The engine keeps the whole
database resident in memory (`self.data`, a dict from collection name to a
list of documents) and rewrites the durable file after every mutation.

This file embeds the data model and the operations of class `FarnDB`
(`insert`, `find`, `find_one`, `update`, `delete`, `count`,
`create_collection`, `drop_collection`, `list_collections`) as pure Lean
functions and proves properties of them.

Modelling decisions:
* JSON values are the inductive `Value`; Python `==` on JSON-decoded values
  is `pyEq` (note Python identifies `True`/`False` with `1`/`0`, and `int`
  with equal `float`, which `Value.num : Rat` captures).
* Python dicts are association lists with the dict operations `alookup`
  (subscript / `in`), `aset` (subscript assignment: replace in place, else
  append, preserving insertion order), `adel` (`del`), `merge`
  (`dict.update`).
* `time.time()` and the microsecond counter of `insert` are parameters of
  the operations (the code reads the clock; the embedding receives the
  values those reads produced).
* `_save_data` is modelled as recording the current data as the durable
  content and counting the save events; the happy I/O path is assumed.
-/

namespace FarnDB

/-- A JSON value as decoded by Python's `json.load`: `None`, `bool`,
numbers (`int`/`float`, both embedded in `Rat`), `str`, `list`, `dict`. -/
inductive Value : Type where
  | null : Value
  | bool : Bool → Value
  | num : Rat → Value
  | str : String → Value
  | arr : List Value → Value
  | obj : List (String × Value) → Value
deriving Repr

mutual
/-- Python `==` on JSON-decoded values.  Scalars of different kinds are
unequal, except that Python booleans equal the numbers `1`/`0`.  Lists are
compared pointwise; dicts are equal when they have the same size and every
key of the first maps in the second to an equal value. -/
def pyEq : Value → Value → Bool
  | Value.null, Value.null => true
  | Value.bool a, Value.bool b => a == b
  | Value.bool a, Value.num q => (if a then (1 : Rat) else 0) == q
  | Value.num q, Value.bool b => q == (if b then (1 : Rat) else 0)
  | Value.num p, Value.num q => p == q
  | Value.str a, Value.str b => a == b
  | Value.arr xs, Value.arr ys => pyEqList xs ys
  | Value.obj xs, Value.obj ys => xs.length == ys.length && pyEqObjSub xs ys
  | _, _ => false
termination_by a b => sizeOf a + sizeOf b

/-- Pointwise Python `==` on lists. -/
def pyEqList : List Value → List Value → Bool
  | [], [] => true
  | x :: xs, y :: ys => pyEq x y && pyEqList xs ys
  | _, _ => false
termination_by xs ys => sizeOf xs + sizeOf ys

/-- Every entry of the first dict maps in the second to a Python-equal
value. -/
def pyEqObjSub : List (String × Value) → List (String × Value) → Bool
  | [], _ => true
  | (k, v) :: rest, ys => pyMemEq k v ys && pyEqObjSub rest ys
termination_by xs ys => sizeOf xs + sizeOf ys

/-- The dict holds key `k` with a value Python-equal to `v`. -/
def pyMemEq : String → Value → List (String × Value) → Bool
  | _, _, [] => false
  | k, v, (k', v') :: rest => if k == k' then pyEq v v' else pyMemEq k v rest
termination_by _ v ys => sizeOf v + sizeOf ys
end

/-- A document: a Python dict from field name to JSON value, in insertion
order (Python dicts preserve insertion order). -/
abbrev Doc := List (String × Value)

/-- A query / patch payload: also a Python dict of field names to values. -/
abbrev Query := List (String × Value)

/-- Dict lookup, `d[k]` / `k in d`: the value at the first matching key. -/
def alookup {β : Type} (k : String) : List (String × β) → Option β
  | [] => none
  | (k', v) :: rest => if k = k' then some v else alookup k rest

/-- Dict assignment `d[k] = v`: replaces the value in place when the key is
present (keeping its position), otherwise appends the new entry at the
end — exactly the Python dict semantics. -/
def aset {β : Type} (k : String) (v : β) : List (String × β) → List (String × β)
  | [] => [(k, v)]
  | (k', v') :: rest => if k = k' then (k, v) :: rest else (k', v') :: aset k v rest

/-- Dict deletion `del d[k]`: removes the entry with key `k`. -/
def adel {β : Type} (k : String) : List (String × β) → List (String × β)
  | [] => []
  | (k', v') :: rest => if k = k' then rest else (k', v') :: adel k rest

/-- Python `dict.update(p)`: merge each key/value of `p` into the dict,
overwriting existing keys and appending new ones, in `p`'s order. -/
def merge (d : Doc) (p : Query) : Doc :=
  p.foldl (fun acc kv => aset kv.1 kv.2 acc) d

/-- The engine state of a `FarnDB` instance: `data` is `self.data` (a dict
from collection name to document list); `saved` is the content of the
durable file; `saveCount` counts the `_save_data` events. -/
structure DBState where
  data : List (String × List Doc)
  saved : List (String × List Doc)
  saveCount : Nat
deriving Repr

/-- `FarnDB._save_data` on the happy path: serialize `self.data` to the
durable file (modelled as recording the content and the event). -/
def saveData (st : DBState) : DBState :=
  { st with saved := st.data, saveCount := st.saveCount + 1 }

/-- `FarnDB.create_collection`: if the name is absent, bind it to the empty
list and persist; otherwise do nothing. -/
def create_collection (st : DBState) (name : String) : DBState :=
  match alookup name st.data with
  | some _ => st
  | none => saveData { st with data := aset name [] st.data }

/-- `FarnDB.insert document`'s mutation of the caller's dict: set `_id`,
`_created`, `_modified`.  `micros` is `int(time.time() * 1000000)` at line
81; `t1`, `t2` are the `time.time()` readings at lines 83 and 84. -/
def stampDoc (document : Doc) (micros : Nat) (t1 t2 : Rat) : Doc :=
  aset "_modified" (Value.num t2)
    (aset "_created" (Value.num t1)
      (aset "_id" (Value.str (Nat.repr micros)) document))

/-- `FarnDB.insert`: ensure the collection exists, stamp the document with
`_id`/`_created`/`_modified`, append it, persist, return the id. -/
def insert (st : DBState) (collection_name : String) (document : Doc)
    (micros : Nat) (t1 t2 : Rat) : DBState × String :=
  let st1 := create_collection st collection_name
  let doc := stampDoc document micros t1 t2
  let docs := (alookup collection_name st1.data).getD []
  let st2 := saveData { st1 with data := aset collection_name (docs ++ [doc]) st1.data }
  (st2, Nat.repr micros)

/-- The matching loop of `FarnDB.find` (lines 113–117): `match` stays true
iff every queried key is present in the document with a `==`-equal value. -/
def findMatch (doc : Doc) (query : Query) : Bool :=
  query.all fun kv =>
    match alookup kv.1 doc with
    | none => false
    | some w => pyEq w kv.2

/-- `FarnDB.find`: missing collection gives `[]`; `query = None` gives the
whole collection; otherwise the documents passing `findMatch`, in order. -/
def find (st : DBState) (collection_name : String) (query : Option Query) :
    List Doc :=
  match alookup collection_name st.data with
  | none => []
  | some documents =>
    match query with
    | none => documents
    | some q => documents.filter (fun doc => findMatch doc q)

/-- `FarnDB.find_one`: the first result of `find`, if any. -/
def find_one (st : DBState) (collection_name : String) (query : Query) :
    Option Doc :=
  (find st collection_name (some query)).head?

/-- `FarnDB.update`: for every matching document, `doc.update(update_data)`
then set `_modified` to the clock reading `now`; persist iff the count is
positive.  (The code reads `time.time()` once per matched document; `now`
stands for those readings, taken equal.)  The matching loop at lines
154–158 is textually the one of `find`, hence `findMatch`. -/
def update (st : DBState) (collection_name : String) (query : Query)
    (update_data : Query) (now : Rat) : DBState × Nat :=
  match alookup collection_name st.data with
  | none => (st, 0)
  | some documents =>
    let newDocs := documents.map fun doc =>
      if findMatch doc query
      then aset "_modified" (Value.num now) (merge doc update_data)
      else doc
    let updated_count := (documents.filter (fun doc => findMatch doc query)).length
    let st' := { st with data := aset collection_name newDocs st.data }
    if updated_count > 0 then (saveData st', updated_count) else (st', updated_count)

/-- The matching predicate of `FarnDB.delete` (line 189):
`all(doc.get(key) == value for key, value in query.items())` — note
`doc.get(key)` yields `None` when the key is absent. -/
def deleteMatch (doc : Doc) (query : Query) : Bool :=
  query.all fun kv => pyEq ((alookup kv.1 doc).getD Value.null) kv.2

/-- `FarnDB.delete`: keep the documents not matching the query; persist iff
the count of removed documents is positive. -/
def delete (st : DBState) (collection_name : String) (query : Query) :
    DBState × Nat :=
  match alookup collection_name st.data with
  | none => (st, 0)
  | some documents =>
    let kept := documents.filter (fun doc => !(deleteMatch doc query))
    let deleted_count := documents.length - kept.length
    let st' := { st with data := aset collection_name kept st.data }
    if deleted_count > 0 then (saveData st', deleted_count) else (st', deleted_count)

/-- `FarnDB.list_collections`: the collection names in dict order. -/
def list_collections (st : DBState) : List String :=
  st.data.map Prod.fst

/-- `FarnDB.drop_collection`: delete the entry and persist when present;
report whether it existed. -/
def drop_collection (st : DBState) (collection_name : String) :
    DBState × Bool :=
  match alookup collection_name st.data with
  | some _ => (saveData { st with data := adel collection_name st.data }, true)
  | none => (st, false)

/-- `FarnDB.count`: the length of the `find` result. -/
def count (st : DBState) (collection_name : String) (query : Option Query) :
    Nat :=
  (find st collection_name query).length

/-- The documents currently stored under a collection name (empty when the
collection is absent) — the observation the claims are phrased in. -/
def collOf (st : DBState) (collection_name : String) : List Doc :=
  (alookup collection_name st.data).getD []

/-- Big-endian decimal digit characters of a natural number. -/
def digitsBE (n : Nat) : List Char :=
  if n < 10 then [Nat.digitChar n]
  else digitsBE (n / 10) ++ [Nat.digitChar (n % 10)]
decreasing_by
  exact Nat.div_lt_self (by omega) (by omega)
/-- A sequence of `insert` calls into one collection on one engine: each
element carries the caller document and the clock readings of that call. -/
def insertMany (st : DBState) (c : String) :
    List (Doc × Nat × Rat × Rat) → DBState × List String
  | [] => (st, [])
  | i :: rest =>
    let r := insert st c i.1 i.2.1 i.2.2.1 i.2.2.2
    let r' := insertMany r.1 c rest
    (r'.1, r.2 :: r'.2)
/-- The document carries numeric `_created` and `_modified` fields with
`_created` ≤ `_modified` ≤ `t`. -/
def docTimesOK (t : Rat) (d : Doc) : Bool :=
  match alookup "_created" d, alookup "_modified" d with
  | some (Value.num cr), some (Value.num mo) => decide (cr ≤ mo) && decide (mo ≤ t)
  | _, _ => false

/-- Every stored document of every collection satisfies `docTimesOK t`. -/
def timesOK (st : DBState) (t : Rat) : Bool :=
  st.data.all fun e => e.2.all (docTimesOK t)
/-- A freshly constructed engine over an absent file: empty database. -/
def db0 : DBState := { data := [], saved := [], saveCount := 0 }
/-- A sample state: one collection `c` holding one document without key `x`. -/
def sampleA : DBState :=
  { data := [("c", [[("a", Value.num 1)]])], saved := [], saveCount := 0 }
/-- A sample state: one collection `c` holding one document with a boolean field. -/
def sampleB : DBState :=
  { data := [("c", [[("x", Value.bool true)]])], saved := [], saveCount := 0 }

/-! ## Dictionary lemmas -/

theorem alookup_aset_self {β : Type} (k : String) (v : β) (l : List (String × β)) :
    alookup k (aset k v l) = some v := by
  induction l with
  | nil => simp [aset, alookup]
  | cons e rest ih =>
    by_cases h : k = e.1
    · simp [aset, h, alookup]
    · simp [aset, h, alookup, ih]

theorem alookup_aset_ne {β : Type} {k k' : String} (v : β) (l : List (String × β))
    (h : k ≠ k') : alookup k (aset k' v l) = alookup k l := by
  induction l with
  | nil => simp [aset, alookup, h]
  | cons e rest ih =>
    by_cases h1 : k' = e.1
    · subst h1; simp [aset, alookup, h, ih]
    · by_cases h2 : k = e.1
      · simp [aset, h1, alookup, h2]
      · simp [aset, h1, alookup, h2, ih]

theorem alookup_adel_ne {β : Type} {k k' : String} (l : List (String × β))
    (h : k ≠ k') : alookup k (adel k' l) = alookup k l := by
  induction l with
  | nil => simp [adel]
  | cons e rest ih =>
    by_cases h1 : k' = e.1
    · subst h1; simp [adel, alookup, h]
    · by_cases h2 : k = e.1
      · simp [adel, h1, alookup, h2]
      · simp [adel, h1, alookup, h2, ih]

theorem aset_self_of_alookup {β : Type} {k : String} {v : β} {l : List (String × β)}
    (h : alookup k l = some v) : aset k v l = l := by
  induction l with
  | nil => simp [alookup] at h
  | cons e rest ih =>
    obtain ⟨k0, v0⟩ := e
    by_cases h1 : k = k0
    · simp [alookup, h1] at h
      simp [aset, h1, h]
    · simp [alookup, h1] at h
      simp [aset, h1, ih h]

theorem aset_of_alookup_none {β : Type} {k : String} (v : β) {l : List (String × β)}
    (h : alookup k l = none) : aset k v l = l ++ [(k, v)] := by
  induction l with
  | nil => simp [aset]
  | cons e rest ih =>
    by_cases h1 : k = e.1
    · simp [alookup, h1] at h
    · simp [alookup, h1] at h
      simp [aset, h1, ih h]

theorem alookup_merge_of_not_key {k : String} (d : Doc) (p : Query)
    (h : ∀ kv ∈ p, kv.1 ≠ k) : alookup k (merge d p) = alookup k d := by
  induction p generalizing d with
  | nil => simp [merge]
  | cons kv rest ih =>
    have hk : kv.1 ≠ k := h kv (by simp)
    have hrest : ∀ kv' ∈ rest, kv'.1 ≠ k := fun kv' hm => h kv' (by simp [hm])
    show alookup k (merge (aset kv.1 kv.2 d) rest) = alookup k d
    rw [ih (aset kv.1 kv.2 d) hrest, alookup_aset_ne _ _ (Ne.symm hk)]

theorem all_aset {β : Type} (P : String × β → Bool) (k : String) (v : β)
    (l : List (String × β)) (hl : l.all P = true) (hv : P (k, v) = true) :
    (List.all (aset k v l) P) = true := by
  induction l with
  | nil => simpa [aset]
  | cons e rest ih =>
    obtain ⟨k0, v0⟩ := e
    simp only [List.all_cons, Bool.and_eq_true] at hl
    by_cases h1 : k = k0
    · simp [aset, h1, hl.2]
      simpa [h1] using hv
    · simp [aset, h1, hl.1, ih hl.2]

theorem all_of_alookup {β : Type} {P : String × β → Bool} {k : String} {v : β}
    {l : List (String × β)} (hl : l.all P = true) (h : alookup k l = some v) :
    P (k, v) = true := by
  induction l with
  | nil => simp [alookup] at h
  | cons e rest ih =>
    obtain ⟨k0, v0⟩ := e
    simp only [List.all_cons, Bool.and_eq_true] at hl
    by_cases h1 : k = k0
    · simp [alookup, h1] at h
      subst h1; subst h
      exact hl.1
    · simp [alookup, h1] at h
      exact ih hl.2 h

/-! ## Injectivity of the id representation

`insert` returns `str(int(time.time() * 1000000))`; distinct microsecond
counters give distinct id strings because the decimal representation of a
natural number is injective. -/


theorem digitsBE_of_lt {n : Nat} (h : n < 10) : digitsBE n = [Nat.digitChar n] := by
  rw [digitsBE]
  simp [h]

theorem digitsBE_of_ge {n : Nat} (h : ¬ n < 10) :
    digitsBE n = digitsBE (n / 10) ++ [Nat.digitChar (n % 10)] := by
  conv_lhs => rw [digitsBE]
  simp [h]

theorem digitChar_toNat : ∀ d < 10, (Nat.digitChar d).toNat = 48 + d := by decide

theorem toDigitsCore_eq_digitsBE :
    ∀ (fuel n : Nat) (ds : List Char), n < fuel →
      Nat.toDigitsCore 10 fuel n ds = digitsBE n ++ ds := by
  intro fuel
  induction fuel with
  | zero => intro n ds h; omega
  | succ f ih =>
    intro n ds h
    by_cases h10 : n < 10
    · have hdiv : n / 10 = 0 := Nat.div_eq_of_lt h10
      have hmod : n % 10 = n := Nat.mod_eq_of_lt h10
      simp [Nat.toDigitsCore, hdiv, digitsBE_of_lt h10, hmod]
    · have hone : 1 ≤ n / 10 := (Nat.one_le_div_iff (by omega)).mpr (by omega)
      have hdiv : ¬ (n / 10 = 0) := by omega
      have hlt : n / 10 < f := by
        have h1 : n / 10 < n := Nat.div_lt_self (by omega) (by omega)
        omega
      simp only [Nat.toDigitsCore, hdiv, if_false]
      rw [ih (n / 10) (Nat.digitChar (n % 10) :: ds) hlt, digitsBE_of_ge h10]
      simp

theorem foldl_digitsBE :
    ∀ (n : Nat) (a : Nat),
      List.foldl (fun acc c => 10 * acc + (c.toNat - 48)) a (digitsBE n)
        = a * 10 ^ (digitsBE n).length + n := by
  intro n
  induction n using Nat.strong_induction_on with
  | _ n ih =>
    intro a
    by_cases h10 : n < 10
    · rw [digitsBE_of_lt h10]
      simp [digitChar_toNat n h10]
      omega
    · rw [digitsBE_of_ge h10]
      simp only [List.foldl_append, List.length_append, List.length_cons,
        List.length_nil, List.foldl_cons, List.foldl_nil]
      have hlt : n / 10 < n := Nat.div_lt_self (by omega) (by omega)
      rw [ih (n / 10) hlt a]
      have hmod : (Nat.digitChar (n % 10)).toNat = 48 + n % 10 :=
        digitChar_toNat (n % 10) (Nat.mod_lt n (by omega))
      rw [hmod]
      have hdm : 10 * (n / 10) + n % 10 = n := Nat.div_add_mod n 10
      have hpow : 10 ^ ((digitsBE (n / 10)).length + 1)
          = 10 ^ (digitsBE (n / 10)).length * 10 := pow_succ 10 _
      rw [hpow]
      ring_nf
      omega

theorem digitsBE_inj {m n : Nat} (h : digitsBE m = digitsBE n) : m = n := by
  have hm := foldl_digitsBE m 0
  have hn := foldl_digitsBE n 0
  rw [h] at hm
  omega

theorem natRepr_inj {m n : Nat} (h : Nat.repr m = Nat.repr n) : m = n := by
  unfold Nat.repr Nat.toDigits at h
  rw [toDigitsCore_eq_digitsBE (m + 1) m [] (by omega),
    toDigitsCore_eq_digitsBE (n + 1) n [] (by omega)] at h
  simp only [List.append_nil, List.asString_inj] at h
  exact digitsBE_inj h

theorem length_filter_split {α : Type} (p : α → Bool) (l : List α) :
    (l.filter p).length + (l.filter (fun a => !(p a))).length = l.length := by
  induction l with
  | nil => simp
  | cons a rest ih =>
    by_cases h : p a
    · simp [List.filter, h, ← ih]; omega
    · simp [List.filter, h, ← ih]; omega

/-- Claim C5: `delete(c, {})` with the empty query removes every document
of collection `c` and returns the number of documents `c` held before the
call. -/
theorem delete_empty_query_removes_all (st : DBState) (c : String) :
    (delete st c []).2 = (collOf st c).length ∧ collOf (delete st c []).1 c = [] := by
  cases h : alookup c st.data with
  | none => simp [delete, collOf, h]
  | some docs =>
    have hm : ∀ doc : Doc, deleteMatch doc [] = true := by intro doc; simp [deleteMatch]
    have hf : docs.filter (fun doc => !(deleteMatch doc [])) = [] := by
      simp [hm]
    constructor
    · simp [delete, h, hf, collOf]
      split
      · rfl
      · rfl
    · simp [delete, h, hf, collOf]
      split
      · simp [saveData, alookup_aset_self]
      · simp [alookup_aset_self]

/-- Claim C6: an `update` or `delete` that matches zero documents returns
0, leaves the whole in-memory database unchanged and performs no save (the
durable content and the save counter are untouched, since the returned
state is exactly the input state). -/
theorem noop_mutation_preserves_state (st : DBState) (c : String)
    (q p : Query) (now : Rat) :
    ((update st c q p now).2 = 0 → (update st c q p now).1 = st) ∧
    ((delete st c q).2 = 0 → (delete st c q).1 = st) := by
  constructor
  · intro h0
    cases h : alookup c st.data with
    | none => simp [update, h]
    | some docs =>
      simp only [update, h] at h0 ⊢
      split at h0 <;> rename_i hc
      · simp at h0
        have hnil : docs.filter (fun doc => findMatch doc q) = [] :=
          List.filter_eq_nil_iff.mpr (by intro a ha; simp [h0 a ha])
        rw [hnil] at hc
        simp at hc
      · simp at h0
        rw [if_neg hc]
        have hnone : ∀ doc ∈ docs, ¬ (findMatch doc q = true) := by
          intro doc hd hm
          rw [h0 doc hd] at hm
          exact Bool.false_ne_true hm
        have hmap : docs.map (fun doc =>
            if findMatch doc q
            then aset "_modified" (Value.num now) (merge doc p)
            else doc) = docs := by
          have := List.map_congr_left (l := docs)
            (f := fun doc => if findMatch doc q
              then aset "_modified" (Value.num now) (merge doc p) else doc)
            (g := fun doc => doc)
            (by intro a ha; simp [hnone a ha])
          simpa using this
        simp only [hmap, aset_self_of_alookup h]
  · intro h0
    cases h : alookup c st.data with
    | none => simp [delete, h]
    | some docs =>
      simp only [delete, h] at h0 ⊢
      split at h0 <;> rename_i hc
      · simp at h0
        omega
      · simp at h0
        rw [if_neg hc]
        have hle := List.length_filter_le (fun doc => !(deleteMatch doc q)) docs
        have hlen : (docs.filter (fun doc => !(deleteMatch doc q))).length = docs.length := by
          omega
        have heq : docs.filter (fun doc => !(deleteMatch doc q)) = docs :=
          List.filter_eq_self.mpr (List.filter_length_eq_length.mp hlen)
        simp only [heq, aset_self_of_alookup h]

/-- Claim C7: on a collection name absent from the database, `find`
returns `[]`, `count` returns 0, and `update` and `delete` return 0 with
the state unchanged; none of them fails. -/
theorem missing_collection_is_benign (st : DBState) (c : String)
    (q : Option Query) (q' p : Query) (now : Rat)
    (h : alookup c st.data = none) :
    find st c q = [] ∧ count st c q = 0 ∧
    update st c q' p now = (st, 0) ∧ delete st c q' = (st, 0) := by
  refine ⟨?_, ?_, ?_, ?_⟩ <;> simp [find, count, update, delete, h]

/-- Claim C10: every mutating operation on collection `c` — `insert`,
`update`, `delete`, `drop_collection` — leaves the contents of every other
collection `c'` unchanged. -/
theorem mutation_preserves_other_collections (st : DBState) (c c' : String)
    (doc : Doc) (micros : Nat) (t1 t2 : Rat) (q p : Query) (now : Rat)
    (hne : c' ≠ c) :
    collOf (insert st c doc micros t1 t2).1 c' = collOf st c' ∧
    collOf (update st c q p now).1 c' = collOf st c' ∧
    collOf (delete st c q).1 c' = collOf st c' ∧
    collOf (drop_collection st c).1 c' = collOf st c' := by
  have hcc : (create_collection st c).data = st.data ∨
      (create_collection st c).data = aset c [] st.data := by
    unfold create_collection
    cases alookup c st.data
    · right; rfl
    · left; rfl
  refine ⟨?_, ?_, ?_, ?_⟩
  · simp only [insert, saveData, collOf]
    rw [alookup_aset_ne _ _ hne]
    rcases hcc with h | h <;> rw [h]
    rw [alookup_aset_ne _ _ hne]
  · cases h : alookup c st.data with
    | none => simp [update, h]
    | some docs =>
      simp only [update, h, collOf]
      split <;> simp [saveData, alookup_aset_ne _ _ hne]
  · cases h : alookup c st.data with
    | none => simp [delete, h]
    | some docs =>
      simp only [delete, h, collOf]
      split <;> simp [saveData, alookup_aset_ne _ _ hne]
  · cases h : alookup c st.data with
    | none => simp [drop_collection, h]
    | some docs =>
      simp only [drop_collection, h, collOf, saveData]
      rw [alookup_adel_ne _ hne]


theorem pyEq_null_of_ne {v : Value} (h : v ≠ Value.null) :
    pyEq Value.null v = false := by
  cases v
  case null => exact absurd rfl h
  all_goals simp [pyEq]

theorem deleteMatch_eq_findMatch {d : Doc} {q : Query}
    (h : ∀ kv ∈ q, kv.2 ≠ Value.null) : deleteMatch d q = findMatch d q := by
  unfold deleteMatch findMatch
  induction q with
  | nil => rfl
  | cons kv rest ih =>
    have hh : kv.2 ≠ Value.null := h kv (by simp)
    have hr : ∀ kv' ∈ rest, kv'.2 ≠ Value.null := fun kv' hm => h kv' (by simp [hm])
    simp only [List.all_cons]
    rw [ih hr]
    cases hl : alookup kv.1 d with
    | some w => simp [hl]
    | none => simp [hl, pyEq_null_of_ne hh]

/-- Claim C2, counterexample: on a document lacking key `x`, the query
pair `("x", null)` matches for `delete` (which uses `doc.get(key) == value`)
but not for `find` (which requires the key to be present): `delete` removes
a document `find` does not return, so the two predicates are not the same
function. -/
theorem delete_and_find_disagree_on_null :
    find sampleA "c" (some [("x", Value.null)]) = [] ∧
    (delete sampleA "c" [("x", Value.null)]).2 = 1 ∧
    collOf (delete sampleA "c" [("x", Value.null)]).1 "c" = [] := by
  refine ⟨?_, ?_, ?_⟩ <;>
    simp [find, delete, sampleA, alookup, findMatch, deleteMatch, pyEq, collOf,
      aset, saveData]

/-- Claim C2, amended: whenever no query value is `null`, the set of
documents removed by `delete` is exactly the set `find` would return: the
kept documents are those failing `find`'s predicate and the returned count
is the length of the `find` result.  (With a `null` query value the two
predicates differ on documents lacking the key — see the counterexample.) -/
theorem delete_removes_exactly_find_matches (st : DBState) (c : String)
    (q : Query) (h : ∀ kv ∈ q, kv.2 ≠ Value.null) :
    collOf (delete st c q).1 c = (collOf st c).filter (fun d => !(findMatch d q)) ∧
    (delete st c q).2 = (find st c (some q)).length := by
  cases hc : alookup c st.data with
  | none => simp [delete, collOf, find, hc]
  | some docs =>
    have hfilter : docs.filter (fun d => !(deleteMatch d q))
        = docs.filter (fun d => !(findMatch d q)) := by
      apply List.filter_congr
      intro d _
      rw [deleteMatch_eq_findMatch h]
    have hsplit := length_filter_split (fun d => findMatch d q) docs
    constructor
    · simp only [delete, hc, hfilter, collOf]
      split <;> simp [saveData, alookup_aset_self]
    · simp only [delete, hc, hfilter, find]
      split <;> omega


/-- Claim C3, counterexample: a query value of numeric type `1` matches a
stored boolean `True` (Python `True == 1`), so a value of one type can
match a value of a different type, contrary to the claim. -/
theorem find_num_query_returns_bool_doc :
    find sampleB "c" (some [("x", Value.num 1)]) = [[("x", Value.bool true)]] ∧
    Value.bool true ≠ Value.num 1 := by
  constructor
  · simp [find, sampleB, alookup, findMatch, pyEq]
  · simp

/-- Claim C3, amended: `find` returns a document iff for every pair
`(k, v)` of the query the document contains key `k` with a value Python-
equal to `v`; this equality is type-sensitive between numbers and strings
(numeric `30` never matches string `"30"` in either order), but a boolean
compares equal to the numbers `1`/`0` (Python semantics). -/
theorem find_query_exact_characterization (st : DBState) (c : String)
    (q : Query) (d : Doc) :
    (d ∈ find st c (some q) ↔ d ∈ collOf st c ∧
      ∀ kv ∈ q, ∃ w, alookup kv.1 d = some w ∧ pyEq w kv.2 = true) ∧
    (∀ (p : Rat) (s : String), pyEq (Value.num p) (Value.str s) = false) ∧
    (∀ (s : String) (p : Rat), pyEq (Value.str s) (Value.num p) = false) ∧
    (∀ (b : Bool) (p : Rat),
      pyEq (Value.bool b) (Value.num p) = ((if b then (1 : Rat) else 0) == p)) := by
  refine ⟨?_, ?_, ?_, ?_⟩
  · cases hc : alookup c st.data with
    | none => simp [find, collOf, hc]
    | some docs =>
      simp only [find, hc, collOf, Option.getD_some, List.mem_filter]
      constructor
      · rintro ⟨hd, hm⟩
        refine ⟨hd, ?_⟩
        intro kv hkv
        have := (List.all_eq_true.mp hm) kv hkv
        cases hl : alookup kv.1 d with
        | none => rw [hl] at this; simp at this
        | some w => rw [hl] at this; exact ⟨w, rfl, this⟩
      · rintro ⟨hd, hall⟩
        refine ⟨hd, ?_⟩
        apply List.all_eq_true.mpr
        intro kv hkv
        obtain ⟨w, hw, hpy⟩ := hall kv hkv
        rw [hw]
        exact hpy
  · intro p s; simp [pyEq]
  · intro s p; simp [pyEq]
  · intro b p; simp [pyEq]

/-- Claim C1, violated by the code (`doc.update(update_data)` merges the
patch verbatim, with no reserved-field guard): after an update whose patch
carries `_id` and `_created`, the stored document's `_id` and `_created`
are the patch's values, not the originals. -/
theorem update_patch_overwrites_id_and_created :
    ((collOf (insert db0 "users" [("name", Value.str "Alice")] 100 1 2).1 "users").map
        (fun d => (alookup "_id" d, alookup "_created" d))
      = [(some (Value.str "100"), some (Value.num 1))]) ∧
    ((collOf (update (insert db0 "users" [("name", Value.str "Alice")] 100 1 2).1
          "users" [] [("_id", Value.str "forged"), ("_created", Value.num 999)] 3).1
        "users").map (fun d => (alookup "_id" d, alookup "_created" d))
      = [(some (Value.str "forged"), some (Value.num 999))]) := by
  have h100 : Nat.repr 100 = "100" := rfl
  constructor
  · simp [insert, db0, create_collection, saveData, stampDoc, collOf, alookup,
      aset, h100]
  · simp [insert, update, db0, create_collection, saveData, stampDoc, collOf,
      alookup, aset, merge, findMatch, h100]


theorem insertMany_ids (c : String) (inputs : List (Doc × Nat × Rat × Rat)) :
    ∀ st : DBState, (insertMany st c inputs).2
      = inputs.map (fun i => Nat.repr i.2.1) := by
  induction inputs with
  | nil => intro st; rfl
  | cons i rest ih =>
    intro st
    simp only [insertMany, List.map_cons]
    rw [ih]
    rfl

theorem collOf_insert (st : DBState) (c : String) (d : Doc) (m : Nat)
    (t1 t2 : Rat) :
    collOf (insert st c d m t1 t2).1 c = collOf st c ++ [stampDoc d m t1 t2] := by
  unfold insert
  simp only [saveData, collOf, alookup_aset_self, Option.getD_some]
  unfold create_collection
  cases h : alookup c st.data with
  | none => simp [saveData, alookup_aset_self, collOf, h]
  | some docs => simp [collOf, h]

theorem alookup_id_stampDoc (d : Doc) (m : Nat) (t1 t2 : Rat) :
    alookup "_id" (stampDoc d m t1 t2) = some (Value.str (Nat.repr m)) := by
  unfold stampDoc
  rw [alookup_aset_ne _ _ (by simp), alookup_aset_ne _ _ (by simp),
    alookup_aset_self]

/-- Claim C8, counterexample: two inserts whose microsecond clock readings
coincide return the same `_id` string and store two documents with the
same `_id` in one collection — the code has no collision check. -/
theorem two_inserts_same_micros_collide :
    (insert db0 "c" [] 7 1 1).2
        = (insert (insert db0 "c" [] 7 1 1).1 "c" [] 7 2 2).2 ∧
    (collOf (insert (insert db0 "c" [] 7 1 1).1 "c" [] 7 2 2).1 "c").map
        (alookup "_id")
      = [some (Value.str "7"), some (Value.str "7")] := by
  constructor
  · rfl
  · rw [collOf_insert, collOf_insert]
    have h7 : Nat.repr 7 = "7" := rfl
    simp [collOf, db0, alookup, alookup_id_stampDoc, h7]

/-- Claim C8, amended: provided the microsecond counter values read by the
N inserts are pairwise distinct, the N returned `_id` strings are pairwise
distinct; moreover the documents appended to the collection carry exactly
those ids, so the stored `_id` values contributed by the inserts are
unique. -/
theorem insert_ids_distinct_of_distinct_micros (st : DBState) (c : String)
    (inputs : List (Doc × Nat × Rat × Rat))
    (h : (inputs.map (fun i => i.2.1)).Pairwise (· ≠ ·)) :
    (insertMany st c inputs).2.Pairwise (· ≠ ·) ∧
    collOf (insertMany st c inputs).1 c
      = collOf st c ++ inputs.map (fun i => stampDoc i.1 i.2.1 i.2.2.1 i.2.2.2) ∧
    (inputs.map (fun i => stampDoc i.1 i.2.1 i.2.2.1 i.2.2.2)).map (alookup "_id")
      = (insertMany st c inputs).2.map (fun s => some (Value.str s)) := by
  refine ⟨?_, ?_, ?_⟩
  · rw [insertMany_ids]
    rw [List.pairwise_map] at h ⊢
    exact h.imp (fun hne h' => hne (natRepr_inj h'))
  · induction inputs generalizing st with
    | nil => simp [insertMany]
    | cons i rest ih =>
      simp only [insertMany, List.map_cons]
      rw [ih (insert st c i.1 i.2.1 i.2.2.1 i.2.2.2).1
          (by simpa using (List.pairwise_cons.mp h).2), collOf_insert]
      simp
  · rw [insertMany_ids]
    simp only [List.map_map]
    apply List.map_congr_left
    intro i _
    simp [alookup_id_stampDoc]


/-! ## Timestamp bookkeeping -/

theorem all_imp {α : Type} {P Q : α → Bool} {l : List α}
    (h : l.all P = true) (himp : ∀ x ∈ l, P x = true → Q x = true) :
    l.all Q = true := by
  rw [List.all_eq_true] at h ⊢
  exact fun x hx => himp x hx (h x hx)

theorem all_filter_of_all {α : Type} {P q : α → Bool} {l : List α}
    (h : l.all P = true) : (l.filter q).all P = true := by
  rw [List.all_eq_true] at h ⊢
  intro x hx
  exact h x (List.mem_filter.mp hx).1

theorem docTimesOK_mono {t t' : Rat} {d : Doc} (h : docTimesOK t d = true)
    (hle : t ≤ t') : docTimesOK t' d = true := by
  unfold docTimesOK at h ⊢
  split at h
  next cr mo h1 h2 =>
    simp only [Bool.and_eq_true, decide_eq_true_eq] at h ⊢
    exact ⟨h.1, le_trans h.2 hle⟩
  next => simp at h

theorem timesOK_unfold {st : DBState} {t : Rat} (h : timesOK st t = true) :
    st.data.all (fun e => e.2.all (docTimesOK t)) = true := h

theorem timesOK_docs {st : DBState} {t : Rat} {c : String} {docs : List Doc}
    (hok : timesOK st t = true) (h : alookup c st.data = some docs) :
    docs.all (docTimesOK t) = true := by
  have := all_of_alookup (timesOK_unfold hok) h
  simpa using this

theorem timesOK_mono {st : DBState} {t t' : Rat} (h : timesOK st t = true)
    (hle : t ≤ t') : timesOK st t' = true := by
  unfold timesOK at h ⊢
  exact all_imp h fun e _ he => all_imp he fun d _ hd => docTimesOK_mono hd hle

theorem docTimesOK_stampDoc (d : Doc) (m : Nat) {t1 t2 : Rat} (h : t1 ≤ t2) :
    docTimesOK t2 (stampDoc d m t1 t2) = true := by
  unfold docTimesOK stampDoc
  rw [alookup_aset_ne _ _ (by simp), alookup_aset_self, alookup_aset_self]
  simp [h]

theorem docTimesOK_updated {t now : Rat} {d : Doc} {p : Query}
    (hd : docTimesOK t d = true) (hle : t ≤ now)
    (hp : ∀ kv ∈ p, kv.1 ≠ "_created") :
    docTimesOK now (aset "_modified" (Value.num now) (merge d p)) = true := by
  unfold docTimesOK at hd ⊢
  rw [alookup_aset_ne _ _ (by simp), alookup_merge_of_not_key _ _ hp,
    alookup_aset_self]
  split at hd
  next cr mo h1 h2 =>
    simp only [h1]
    simp only [Bool.and_eq_true, decide_eq_true_eq] at hd ⊢
    exact ⟨le_trans hd.1 (le_trans hd.2 hle), le_refl now⟩
  next => simp at hd

/-- Claim C9, counterexample: an update whose patch carries `_created`
rewrites that reserved field (no guard in the code), leaving a stored
document with `_created = 99 > 3 = _modified`, violating the invariant the
claim states for every reachable state. -/
theorem update_patch_breaks_timestamp_order :
    ((collOf (update (insert db0 "users" [] 100 1 2).1 "users" []
          [("_created", Value.num 99)] 3).1 "users").map
        (fun d => (alookup "_created" d, alookup "_modified" d))
      = [(some (Value.num 99), some (Value.num 3))]) ∧
    ¬ ((99 : Rat) ≤ 3) := by
  constructor
  · simp [insert, update, db0, create_collection, saveData, stampDoc, collOf,
      alookup, aset, merge, findMatch]
  · norm_num

/-- Claim C9, amended: as long as update patches never carry the key
`_created` and the clock readings are monotone, every stored document keeps
numeric `_created` ≤ `_modified` (≤ the latest clock reading) across
`insert`, `update` and `delete`; and an `update` that matches a document
stores it with `_modified` rewritten to the current time and `_created`
unchanged. -/
theorem timestamp_order_preserved_without_created_patch
    (st : DBState) (t : Rat) (c : String) (d : Doc) (micros : Nat)
    (t1 t2 : Rat) (q p : Query) (now : Rat) :
    (timesOK st t = true → t ≤ t1 → t1 ≤ t2 →
      timesOK (insert st c d micros t1 t2).1 t2 = true) ∧
    (timesOK st t = true → t ≤ now → (∀ kv ∈ p, kv.1 ≠ "_created") →
      timesOK (update st c q p now).1 now = true) ∧
    (timesOK st t = true → timesOK (delete st c q).1 t = true) ∧
    ((∀ kv ∈ p, kv.1 ≠ "_created") →
      ∀ d' ∈ collOf st c, findMatch d' q = true →
        ∃ d'' ∈ collOf (update st c q p now).1 c,
          alookup "_created" d'' = alookup "_created" d' ∧
          alookup "_modified" d'' = some (Value.num now)) := by
  refine ⟨?_, ?_, ?_, ?_⟩
  · intro hok h1 h2
    have hok2 : timesOK st t2 = true := timesOK_mono hok (le_trans h1 h2)
    have hstamp := docTimesOK_stampDoc d micros h2
    cases h : alookup c st.data with
    | some docs0 =>
      have hdocs : docs0.all (docTimesOK t2) = true := timesOK_docs hok2 h
      simp only [insert, create_collection, h, saveData, timesOK]
      apply all_aset _ _ _ _ (timesOK_unfold hok2)
      simp [h, List.all_append, hdocs, hstamp]
    | none =>
      simp only [insert, create_collection, h, saveData, timesOK]
      apply all_aset _ _ _ _ ?_ ?_
      · apply all_aset _ _ _ _ (timesOK_unfold hok2)
        simp
      · simp [alookup_aset_self, hstamp]
  · intro hok hle hp
    cases h : alookup c st.data with
    | none => simp only [update, h]; exact timesOK_mono hok hle
    | some docs =>
      have hoknow : timesOK st now = true := timesOK_mono hok hle
      have hdocs : docs.all (docTimesOK t) = true := timesOK_docs hok h
      have hnew : (docs.map fun doc =>
          if findMatch doc q
          then aset "_modified" (Value.num now) (merge doc p)
          else doc).all (docTimesOK now) = true := by
        rw [List.all_map]
        apply all_imp hdocs
        intro doc _ hdoc
        by_cases hm : findMatch doc q
        · simp only [Function.comp_apply, hm, if_true]
          exact docTimesOK_updated hdoc hle hp
        · simp only [Function.comp_apply, hm, if_false]
          exact docTimesOK_mono hdoc hle
      simp only [update, h, timesOK]
      split <;> simp only [saveData] <;>
        exact all_aset _ _ _ _ (timesOK_unfold hoknow) hnew
  · intro hok
    cases h : alookup c st.data with
    | none => simp only [delete, h]; exact hok
    | some docs =>
      have hdocs : docs.all (docTimesOK t) = true := timesOK_docs hok h
      have hkept := all_filter_of_all
        (q := fun doc => !(deleteMatch doc q)) hdocs
      simp only [delete, h, timesOK]
      split <;> simp only [saveData] <;>
        exact all_aset _ _ _ _ (timesOK_unfold hok) hkept
  · intro hp d' hd' hm
    cases h : alookup c st.data with
    | none => simp [collOf, h] at hd'
    | some docs =>
      simp only [collOf, h, Option.getD_some] at hd'
      refine ⟨aset "_modified" (Value.num now) (merge d' p), ?_, ?_, ?_⟩
      · simp only [update, h, collOf]
        have hmem : aset "_modified" (Value.num now) (merge d' p) ∈
            docs.map (fun doc =>
              if findMatch doc q
              then aset "_modified" (Value.num now) (merge doc p)
              else doc) := by
          have := List.mem_map_of_mem (fun doc =>
            if findMatch doc q
            then aset "_modified" (Value.num now) (merge doc p)
            else doc) hd'
          simpa [hm] using this
        split <;> simp [saveData, alookup_aset_self, hmem]
      · rw [alookup_aset_ne _ _ (by simp), alookup_merge_of_not_key _ _ hp]
      · rw [alookup_aset_self]


/-- Witness for C2 (amended): concrete instantiation with a null-free query. -/
theorem delete_removes_exactly_find_matches_witness :
    (∀ kv ∈ ([("a", Value.num 1)] : Query), kv.2 ≠ Value.null) ∧
    (collOf (delete sampleA "c" [("a", Value.num 1)]).1 "c"
        = (collOf sampleA "c").filter
            (fun d => !(findMatch d [("a", Value.num 1)])) ∧
      (delete sampleA "c" [("a", Value.num 1)]).2
        = (find sampleA "c" (some [("a", Value.num 1)])).length) :=
  ⟨by simp, delete_removes_exactly_find_matches sampleA "c" _ (by simp)⟩

/-- Witness for C3 (amended): the number/string clause at `30` and `"30"`. -/
theorem find_query_exact_characterization_witness :
    pyEq (Value.num 30) (Value.str "30") = false :=
  (find_query_exact_characterization db0 "c" [] []).2.1 30 "30"

/-- Witness for C5: concrete delete-all on a one-document collection. -/
theorem delete_empty_query_removes_all_witness :
    (delete sampleA "c" []).2 = (collOf sampleA "c").length ∧
    collOf (delete sampleA "c" []).1 "c" = [] :=
  delete_empty_query_removes_all sampleA "c"

/-- Witness for C6: a query matching no document leaves the state intact. -/
theorem noop_mutation_preserves_state_witness :
    (update sampleA "c" [("a", Value.num 2)] [("b", Value.num 3)] 5).2 = 0 ∧
    (update sampleA "c" [("a", Value.num 2)] [("b", Value.num 3)] 5).1 = sampleA ∧
    (delete sampleA "c" [("a", Value.num 2)]).2 = 0 ∧
    (delete sampleA "c" [("a", Value.num 2)]).1 = sampleA := by
  have h1 : (update sampleA "c" [("a", Value.num 2)] [("b", Value.num 3)] 5).2 = 0 := by
    simp [update, sampleA, alookup, findMatch, pyEq]
  have h2 : (delete sampleA "c" [("a", Value.num 2)]).2 = 0 := by
    simp [delete, sampleA, alookup, deleteMatch, pyEq]
  exact ⟨h1,
    (noop_mutation_preserves_state sampleA "c" [("a", Value.num 2)]
      [("b", Value.num 3)] 5).1 h1,
    h2,
    (noop_mutation_preserves_state sampleA "c" [("a", Value.num 2)]
      [("b", Value.num 3)] 5).2 h2⟩

/-- Witness for C7: a name absent from a concrete database. -/
theorem missing_collection_is_benign_witness :
    alookup "nope" db0.data = none ∧
    (find db0 "nope" none = [] ∧ count db0 "nope" none = 0 ∧
      update db0 "nope" [] [] 1 = (db0, 0) ∧ delete db0 "nope" [] = (db0, 0)) :=
  ⟨rfl, missing_collection_is_benign db0 "nope" none [] [] 1 rfl⟩

/-- Witness for C8 (amended): two inserts with distinct counters 1 and 2. -/
theorem insert_ids_distinct_of_distinct_micros_witness :
    ((([([], 1, 0, 0), ([], 2, 0, 0)] : List (Doc × Nat × Rat × Rat)).map
        (fun i => i.2.1)).Pairwise (· ≠ ·)) ∧
    (insertMany db0 "c" [([], 1, 0, 0), ([], 2, 0, 0)]).2.Pairwise (· ≠ ·) :=
  ⟨by decide,
    (insert_ids_distinct_of_distinct_micros db0 "c"
      [([], 1, 0, 0), ([], 2, 0, 0)] (by decide)).1⟩

/-- Witness for C9 (amended): an insert with ordered clock readings on the
empty database keeps the timestamp invariant. -/
theorem timestamp_order_preserved_witness :
    timesOK db0 0 = true ∧ ((0 : Rat) ≤ 1) ∧ ((1 : Rat) ≤ 2) ∧
    timesOK (insert db0 "c" [] 5 1 2).1 2 = true :=
  ⟨rfl, by norm_num, by norm_num,
    (timestamp_order_preserved_without_created_patch db0 0 "c" [] 5 1 2
      [] [] 3).1 rfl (by norm_num) (by norm_num)⟩

/-- Witness for C10: mutations on collection `c` leave collection `d`
unchanged in a concrete state. -/
theorem mutation_preserves_other_collections_witness :
    (("d" : String) ≠ "c") ∧
    (collOf (insert sampleA "c" [] 1 0 0).1 "d" = collOf sampleA "d" ∧
      collOf (update sampleA "c" [] [] 0).1 "d" = collOf sampleA "d" ∧
      collOf (delete sampleA "c" []).1 "d" = collOf sampleA "d" ∧
      collOf (drop_collection sampleA "c").1 "d" = collOf sampleA "d") :=
  ⟨by decide,
    mutation_preserves_other_collections sampleA "c" "d" [] 1 0 0 [] [] 0
      (by decide)⟩

end FarnDB
